import Mathlib

/- Verification development for the editable polyline primitive of
   eeschema/lib_polyline.cpp (class LIB_POLYLINE): data model, editing
   operations, comparison and hit testing, shallowly embedded in Lean.
   C `int` values are embedded as unbounded integers; wrap-around of
   machine arithmetic is modelled explicitly (`toInt32`) where a property
   depends on it. -/

/-- A 2D integer point (`wxPoint` in the source). -/
structure wxPoint where
  x : ℤ
  y : ℤ
deriving DecidableEq

/-- The zero point; used as the default value for out-of-range list reads. -/
def origin : wxPoint := ⟨0, 0⟩

/-- Modelled from the spec: the edit-state / selection bit masks come from the
base item header, which is not under src/. The spec calls the corresponding
modes Creating (`IS_NEW`) and Dragging (`IS_RESIZED`) and describes the
deleted/skip markers tested by rectangle hit testing. The properties proved
below depend only on these being distinct powers of two; the bit positions
follow the upstream header. -/
def IS_NEW : ℕ := 16

/-- Modelled from the spec: the Dragging (resize) mode bit, see `IS_NEW`. -/
def IS_RESIZED : ℕ := 32

/-- Modelled from the spec: the deleted-item marker bit, see `IS_NEW`. -/
def STRUCT_DELETED : ℕ := 8192

/-- Modelled from the spec: the skip-item marker bit, see `IS_NEW`. -/
def SKIP_STRUCT : ℕ := 16384

/-- Squared Euclidean distance between two points, written with explicit
products as in `BeginEdit`'s `(aPosition - point).x * (aPosition - point).x
+ (aPosition - point).y * (aPosition - point).y`. -/
def distSqP (a b : wxPoint) : ℤ :=
  (a.x - b.x) * (a.x - b.x) + (a.y - b.y) * (a.y - b.y)

/-- Squared length of the segment `a`–`b`. -/
def lenSq (a b : wxPoint) : ℤ :=
  (b.x - a.x) * (b.x - a.x) + (b.y - a.y) * (b.y - a.y)

/-- Dot product of `p - a` with `b - a` (the projection numerator of `p`
onto the segment `a`–`b`). -/
def dotWD (a b p : wxPoint) : ℤ :=
  (p.x - a.x) * (b.x - a.x) + (p.y - a.y) * (b.y - a.y)

/-- Cross product of `p - a` with `b - a`; its square over `lenSq` is the
squared distance from `p` to the line through `a` and `b`. -/
def crossWD (a b p : wxPoint) : ℤ :=
  (p.x - a.x) * (b.y - a.y) - (p.y - a.y) * (b.x - a.x)

/-- Modelled from the spec: `distancePointToSegment(a, b, p)` — the
perpendicular (or nearest-endpoint) distance from `p` to the segment
`a`–`b`; the implementation (`DistanceLinePoint` in trigo.h) is not under
src/. This is its exact square, as a rational: when the projection
parameter `t = dotWD / lenSq` falls left of `[0,1]` the nearest point is
`a`, right of it `b`, and in the interior the squared distance is
`crossWD² / lenSq`. -/
def distSqSeg (a b p : wxPoint) : ℚ :=
  if lenSq a b = 0 then (distSqP p a : ℤ)
  else if dotWD a b p ≤ 0 then (distSqP p a : ℤ)
  else if lenSq a b ≤ dotWD a b p then (distSqP p b : ℤ)
  else (crossWD a b p : ℚ) ^ 2 / (lenSq a b : ℚ)

/-- The floor of `distSqSeg`, computed in integer arithmetic: both
`crossWD²` and `lenSq` are nonnegative, so the floor of their quotient is
natural-number division. -/
def distSqSegFloor (a b p : wxPoint) : ℕ :=
  if lenSq a b = 0 then (distSqP p a).toNat
  else if dotWD a b p ≤ 0 then (distSqP p a).toNat
  else if lenSq a b ≤ dotWD a b p then (distSqP p b).toNat
  else ((crossWD a b p) ^ 2).toNat / (lenSq a b).toNat

/-- Integer square root: the largest `k` with `k * k ≤ n`. -/
def isqrt (n : ℕ) : ℕ :=
  ((List.range (n + 1)).filter (fun k => k * k ≤ n)).foldl max 0

/-- Modelled from the spec: the value `(int) DistanceLinePoint(a, b, p)`
computed by `AddCorner`. The source casts the `double` distance to `int`,
truncating toward zero; for the nonnegative distance `√q` this is
`⌊√q⌋ = isqrt ⌊q⌋`, with `⌊q⌋ = distSqSegFloor`. -/
def DistanceLinePoint (a b p : wxPoint) : ℕ :=
  isqrt (distSqSegFloor a b p)

/-- Conversion of an integer to C `int` (two's-complement 32-bit wrap),
giving a value in `[-2^31, 2^31)`. -/
def toInt32 (z : ℤ) : ℤ :=
  (z + 2 ^ 31) % 2 ^ 32 - 2 ^ 31

/-- The coordinate scan of `LIB_POLYLINE::compare`: the first differing
coordinate (x before y, in storage order) decides; the C `int` subtraction
is modelled with explicit 32-bit wrap. Called only on lists of equal
length; on ragged lists it returns 0 once either side is exhausted. -/
def comparePoints : List wxPoint → List wxPoint → ℤ
  | [], _ => 0
  | _ :: _, [] => 0
  | p :: ps, q :: qs =>
    if p.x ≠ q.x then toInt32 (p.x - q.x)
    else if p.y ≠ q.y then toInt32 (p.y - q.y)
    else comparePoints ps qs

/-- `LIB_POLYLINE::compare`. When the vertex counts differ the source
returns `size() - other.size()`: the `size_t` subtraction wraps modulo
`2^64` and the result is converted to `int`, wrapping modulo `2^32`; since
`2^32` divides `2^64` the composite effect on the signed difference is
exactly `toInt32`. Otherwise the first differing coordinate decides. -/
def LIB_POLYLINE.compare (a b : List wxPoint) : ℤ :=
  if a.length ≠ b.length then toInt32 ((a.length : ℤ) - (b.length : ℤ))
  else comparePoints a b

/-- `LIB_POLYLINE::MirrorHorizontal`: each x-coordinate is shifted by the
center, negated, and shifted back; y is untouched. -/
def MirrorHorizontal (aCenter : wxPoint) (pts : List wxPoint) : List wxPoint :=
  pts.map fun q => ⟨(q.x - aCenter.x) * (-1) + aCenter.x, q.y⟩

lemma toInt32_neg {z : ℤ} (h : toInt32 z ≠ -2 ^ 31) : toInt32 (-z) = -toInt32 z := by
  unfold toInt32 at *
  omega

lemma comparePoints_self (a : List wxPoint) : comparePoints a a = 0 := by
  induction a with
  | nil => rfl
  | cons p t ih => simpa [comparePoints] using ih

lemma comparePoints_swap (a b : List wxPoint) (h : comparePoints a b ≠ -2 ^ 31) :
    comparePoints b a = -comparePoints a b := by
  induction a generalizing b with
  | nil => cases b <;> simp [comparePoints]
  | cons p ps ih =>
    cases b with
    | nil => simp [comparePoints]
    | cons q qs =>
      by_cases hx : p.x = q.x
      · by_cases hy : p.y = q.y
        · have e1 : comparePoints (p :: ps) (q :: qs) = comparePoints ps qs := by
            simp only [comparePoints]
            rw [if_neg (not_not_intro hx), if_neg (not_not_intro hy)]
          have e2 : comparePoints (q :: qs) (p :: ps) = comparePoints qs ps := by
            simp only [comparePoints]
            rw [if_neg (not_not_intro hx.symm), if_neg (not_not_intro hy.symm)]
          rw [e1] at h
          rw [e1, e2]
          exact ih qs h
        · have e1 : comparePoints (p :: ps) (q :: qs) = toInt32 (p.y - q.y) := by
            simp only [comparePoints]
            rw [if_neg (not_not_intro hx), if_pos hy]
          have e2 : comparePoints (q :: qs) (p :: ps) = toInt32 (q.y - p.y) := by
            simp only [comparePoints]
            rw [if_neg (not_not_intro hx.symm), if_pos (fun hc => hy hc.symm)]
          rw [e1] at h
          rw [e1, e2]
          have hq : q.y - p.y = -(p.y - q.y) := by ring
          rw [hq, toInt32_neg h]
      · have e1 : comparePoints (p :: ps) (q :: qs) = toInt32 (p.x - q.x) := by
          simp only [comparePoints]
          rw [if_pos hx]
        have e2 : comparePoints (q :: qs) (p :: ps) = toInt32 (q.x - p.x) := by
          simp only [comparePoints]
          rw [if_pos (fun hc => hx hc.symm)]
        rw [e1] at h
        rw [e1, e2]
        have hq : q.x - p.x = -(p.x - q.x) := by ring
        rw [hq, toInt32_neg h]

lemma compare_swap (a b : List wxPoint) (h : LIB_POLYLINE.compare a b ≠ -2 ^ 31) :
    LIB_POLYLINE.compare b a = -LIB_POLYLINE.compare a b := by
  unfold LIB_POLYLINE.compare at *
  by_cases hl : a.length = b.length
  · rw [if_neg (not_not_intro hl)] at h
    rw [if_neg (not_not_intro hl.symm), if_neg (not_not_intro hl)]
    exact comparePoints_swap a b h
  · rw [if_pos hl] at h
    rw [if_pos (fun hc => hl hc.symm), if_pos hl]
    have hq : (b.length : ℤ) - (a.length : ℤ) = -((a.length : ℤ) - (b.length : ℤ)) := by ring
    rw [hq, toInt32_neg h]

/-- C6: mirroring horizontally about a fixed center is an exact integer
involution on the vertex list — applying `MirrorHorizontal` twice about the
same center returns the original list, with no drift. -/
theorem mirrorHorizontal_involution (c : wxPoint) (pts : List wxPoint) :
    MirrorHorizontal c (MirrorHorizontal c pts) = pts := by
  unfold MirrorHorizontal
  rw [List.map_map]
  have hid : ((fun q : wxPoint => (⟨(q.x - c.x) * (-1) + c.x, q.y⟩ : wxPoint)) ∘
      (fun q : wxPoint => (⟨(q.x - c.x) * (-1) + c.x, q.y⟩ : wxPoint))) = id := by
    funext q
    cases q with
    | mk qx qy =>
      simp only [Function.comp_apply, id_eq, wxPoint.mk.injEq]
      exact ⟨by ring, trivial⟩
  rw [hid, List.map_id]

/-- C5 (amended): `compare(a, a) = 0` for every shape, and whenever
`compare(a, b)` is non-zero *and not INT_MIN* the two orders have opposite
signs. The INT_MIN exclusion is forced by 32-bit wrap-around: when the
deciding difference is congruent to `2^31` modulo `2^32`, both directions
yield `-2^31` (see the counterexample). -/
theorem compare_refl_antisymm (a b : List wxPoint) :
    LIB_POLYLINE.compare a a = 0 ∧
    (LIB_POLYLINE.compare a b ≠ 0 → LIB_POLYLINE.compare a b ≠ -2 ^ 31 →
      (0 < LIB_POLYLINE.compare a b ∧ LIB_POLYLINE.compare b a < 0) ∨
      (LIB_POLYLINE.compare a b < 0 ∧ 0 < LIB_POLYLINE.compare b a)) := by
  constructor
  · unfold LIB_POLYLINE.compare
    simp [comparePoints_self]
  · intro hne hmin
    have hswap := compare_swap a b hmin
    rcases lt_trichotomy (LIB_POLYLINE.compare a b) 0 with hlt | heq | hgt
    · right
      exact ⟨hlt, by omega⟩
    · exact absurd heq hne
    · left
      exact ⟨hgt, by omega⟩

/-- C5 counterexample: with `a = [(0,0)]` and `b = [(-2^31, 0)]` (both
coordinates are valid C `int` values) the deciding x-difference is `2^31`,
which wraps to `-2^31` in both directions: `compare(a,b)` and
`compare(b,a)` are both negative and non-zero, so they do not have
opposite signs. -/
theorem compare_antisymm_cex :
    LIB_POLYLINE.compare [(⟨0, 0⟩ : wxPoint)] [⟨-2 ^ 31, 0⟩] ≠ 0 ∧
    LIB_POLYLINE.compare [(⟨0, 0⟩ : wxPoint)] [⟨-2 ^ 31, 0⟩] < 0 ∧
    LIB_POLYLINE.compare [(⟨-2 ^ 31, 0⟩ : wxPoint)] [⟨0, 0⟩] < 0 := by
  refine ⟨by decide, by decide, by decide⟩

/-- C5 witness: the amended antisymmetry applied at the concrete pair
`a = [(1,2),(3,4)]`, `b = [(1,2)]`, where `compare(a,b) = 1`. -/
theorem compare_refl_antisymm_witness :
    LIB_POLYLINE.compare [(⟨1, 2⟩ : wxPoint), ⟨3, 4⟩] [(⟨1, 2⟩ : wxPoint), ⟨3, 4⟩] = 0 ∧
    ((0 < LIB_POLYLINE.compare [(⟨1, 2⟩ : wxPoint), ⟨3, 4⟩] [⟨1, 2⟩] ∧
      LIB_POLYLINE.compare [(⟨1, 2⟩ : wxPoint)] [(⟨1, 2⟩ : wxPoint), ⟨3, 4⟩] < 0) ∨
     (LIB_POLYLINE.compare [(⟨1, 2⟩ : wxPoint), ⟨3, 4⟩] [⟨1, 2⟩] < 0 ∧
      0 < LIB_POLYLINE.compare [(⟨1, 2⟩ : wxPoint)] [(⟨1, 2⟩ : wxPoint), ⟨3, 4⟩])) :=
  ⟨(compare_refl_antisymm [(⟨1, 2⟩ : wxPoint), ⟨3, 4⟩] [(⟨1, 2⟩ : wxPoint), ⟨3, 4⟩]).1,
   (compare_refl_antisymm [(⟨1, 2⟩ : wxPoint), ⟨3, 4⟩] [⟨1, 2⟩]).2
     (by decide) (by decide)⟩

/-- The `INT_MAX` sentinel initialising `AddCorner`'s running minimum. -/
def INT_MAX : ℕ := 2 ^ 31 - 1

/-- The nearest-segment scan of `LIB_POLYLINE::AddCorner`: fold over the
segment indices, keeping `(currentMinDistance, closestLineStart)`,
initialised to `(INT_MAX, 0)` and updated on strict improvement only (so
the first index achieving the minimum wins). -/
def scanLoop (f : ℕ → ℕ) (M : ℕ) (n : ℕ) : ℕ × ℕ :=
  (List.range n).foldl (fun st i => if f i < st.1 then (f i, i) else st) (M, 0)

/-- The truncated distance from `aPosition` to segment `i` (from vertex `i`
to vertex `i + 1`), as computed inside `AddCorner`'s loop. -/
def segDist (pts : List wxPoint) (aPosition : wxPoint) (i : ℕ) : ℕ :=
  DistanceLinePoint (pts.getD i origin) (pts.getD (i + 1) origin) aPosition

/-- The winning index of `AddCorner`'s scan over the `size() - 1`
consecutive segments. -/
def AddCornerScan (pts : List wxPoint) (aPosition : wxPoint) : ℕ :=
  (scanLoop (segDist pts aPosition) INT_MAX (pts.length - 1)).2

/-- `LIB_POLYLINE::AddCorner`: find the segment nearest to `aPosition` and
insert `aPosition` at index `closestLineStart` — before the winning
segment's *first* vertex. -/
def AddCorner (pts : List wxPoint) (aPosition : wxPoint) : List wxPoint :=
  List.insertIdx (AddCornerScan pts aPosition) aPosition pts

lemma scanLoop_spec (f : ℕ → ℕ) (M n : ℕ) (hn : 0 < n)
    (hf : ∀ i ∈ List.range n, f i < M) :
    (scanLoop f M n).2 < n ∧ (scanLoop f M n).1 = f (scanLoop f M n).2 ∧
    (∀ i ∈ List.range n, f (scanLoop f M n).2 ≤ f i) ∧
    (∀ i < (scanLoop f M n).2, f (scanLoop f M n).2 < f i) := by
  induction n with
  | zero => omega
  | succ n ih =>
    have hstep : scanLoop f M (n + 1) =
        if f n < (scanLoop f M n).1 then (f n, n) else scanLoop f M n := by
      simp [scanLoop, List.range_succ, List.foldl_append]
    rcases Nat.eq_zero_or_pos n with h0 | hpos
    · subst h0
      have hf0 : f 0 < M := hf 0 (by simp)
      have h1 : scanLoop f M 0 = (M, 0) := rfl
      rw [hstep, h1, if_pos hf0]
      refine ⟨by omega, rfl, ?_, by omega⟩
      intro i hi
      simp only [List.mem_range] at hi
      interval_cases i
      exact le_rfl
    · have hf' : ∀ i ∈ List.range n, f i < M := by
        intro i hi
        simp only [List.mem_range] at hi
        exact hf i (by simp only [List.mem_range]; omega)
      obtain ⟨h1, h2, h3, h4⟩ := ih hpos hf'
      by_cases hc : f n < (scanLoop f M n).1
      · rw [hstep, if_pos hc]
        rw [h2] at hc
        refine ⟨by omega, rfl, ?_, ?_⟩
        · intro i hi
          simp only [List.mem_range] at hi
          rcases Nat.lt_succ_iff_lt_or_eq.mp hi with hlt | heq
          · exact le_of_lt (lt_of_lt_of_le hc (h3 i (by simp only [List.mem_range]; omega)))
          · subst heq
            exact le_rfl
        · intro i hi
          exact lt_of_lt_of_le hc (h3 i (by simp only [List.mem_range]; omega))
      · rw [hstep, if_neg hc]
        rw [h2] at hc
        push_neg at hc
        refine ⟨by omega, h2, ?_, h4⟩
        intro i hi
        simp only [List.mem_range] at hi
        rcases Nat.lt_succ_iff_lt_or_eq.mp hi with hlt | heq
        · exact h3 i (by simp only [List.mem_range]; omega)
        · subst heq
          exact hc

/-- C1 (amended): for a polyline with at least 2 vertices whose truncated
segment distances stay below `INT_MAX` (where the source's double-to-int
cast is well defined), `AddCorner` selects the first (lowest-index) segment
minimising the *integer-truncated* `DistanceLinePoint` value — strict
improvement in the scan breaks ties toward the lowest index — and inserts
`aPosition` at index `winner`, immediately before the winning segment's
first vertex (not after it). -/
theorem addCorner_nearest_insert (pts : List wxPoint) (p : wxPoint)
    (h2 : 2 ≤ pts.length)
    (hd : ∀ i ∈ List.range (pts.length - 1), segDist pts p i < INT_MAX) :
    AddCornerScan pts p < pts.length - 1 ∧
    (∀ i ∈ List.range (pts.length - 1),
      segDist pts p (AddCornerScan pts p) ≤ segDist pts p i) ∧
    (∀ i < AddCornerScan pts p,
      segDist pts p (AddCornerScan pts p) < segDist pts p i) ∧
    AddCorner pts p = List.insertIdx (AddCornerScan pts p) p pts := by
  have hn : 0 < pts.length - 1 := by omega
  obtain ⟨h1, _, h3, h4⟩ := scanLoop_spec (segDist pts p) INT_MAX (pts.length - 1) hn hd
  exact ⟨h1, h3, h4, rfl⟩

/-- C1 witness: the amended statement applied to the two-vertex polyline
`[(0,0), (10,0)]` and `p = (5,1)`. -/
theorem addCorner_nearest_insert_witness :
    AddCornerScan [(⟨0, 0⟩ : wxPoint), ⟨10, 0⟩] ⟨5, 1⟩ <
      [(⟨0, 0⟩ : wxPoint), ⟨10, 0⟩].length - 1 ∧
    (∀ i ∈ List.range ([(⟨0, 0⟩ : wxPoint), ⟨10, 0⟩].length - 1),
      segDist [(⟨0, 0⟩ : wxPoint), ⟨10, 0⟩] ⟨5, 1⟩
          (AddCornerScan [(⟨0, 0⟩ : wxPoint), ⟨10, 0⟩] ⟨5, 1⟩) ≤
        segDist [(⟨0, 0⟩ : wxPoint), ⟨10, 0⟩] ⟨5, 1⟩ i) ∧
    (∀ i < AddCornerScan [(⟨0, 0⟩ : wxPoint), ⟨10, 0⟩] ⟨5, 1⟩,
      segDist [(⟨0, 0⟩ : wxPoint), ⟨10, 0⟩] ⟨5, 1⟩
          (AddCornerScan [(⟨0, 0⟩ : wxPoint), ⟨10, 0⟩] ⟨5, 1⟩) <
        segDist [(⟨0, 0⟩ : wxPoint), ⟨10, 0⟩] ⟨5, 1⟩ i) ∧
    AddCorner [(⟨0, 0⟩ : wxPoint), ⟨10, 0⟩] ⟨5, 1⟩ =
      List.insertIdx (AddCornerScan [(⟨0, 0⟩ : wxPoint), ⟨10, 0⟩] ⟨5, 1⟩)
        ⟨5, 1⟩ [(⟨0, 0⟩ : wxPoint), ⟨10, 0⟩] :=
  addCorner_nearest_insert [(⟨0, 0⟩ : wxPoint), ⟨10, 0⟩] ⟨5, 1⟩ (by decide) (by decide)

/-- C1 counterexample: for the polyline `[(6,6), (3,4), (0,0)]` and
`p = (5,1)` the exact squared segment distances are `13` (segment 0,
distance `√13 ≈ 3.606`) and `289/25` (segment 1, distance `3.4`): the
unique minimiser of `distancePointToSegment` is segment 1, so the claim
predicts insertion before that segment's second vertex, at index 2, giving
`[(6,6), (3,4), (5,1), (0,0)]`. The code truncates both distances to `3`,
the tie keeps segment 0, and the insertion lands *before the first vertex*
of the winner: the result is `[(5,1), (6,6), (3,4), (0,0)]`. -/
theorem addCorner_cex :
    distSqSeg ⟨3, 4⟩ ⟨0, 0⟩ ⟨5, 1⟩ < distSqSeg ⟨6, 6⟩ ⟨3, 4⟩ ⟨5, 1⟩ ∧
    AddCorner [(⟨6, 6⟩ : wxPoint), ⟨3, 4⟩, ⟨0, 0⟩] ⟨5, 1⟩ =
      [⟨5, 1⟩, ⟨6, 6⟩, ⟨3, 4⟩, ⟨0, 0⟩] ∧
    AddCorner [(⟨6, 6⟩ : wxPoint), ⟨3, 4⟩, ⟨0, 0⟩] ⟨5, 1⟩ ≠
      [⟨6, 6⟩, ⟨3, 4⟩, ⟨5, 1⟩, ⟨0, 0⟩] := by
  refine ⟨?_, by decide, by decide⟩
  norm_num [distSqSeg, lenSq, dotWD, crossWD, distSqP]

/-- First phase of `LIB_POLYLINE::EndEdit`: in `IS_NEW` mode with more than
2 vertices, drop the last vertex when it duplicates the second-to-last
(do not include the last point twice). -/
def EndEditNewDedup (m_Flags : ℕ) (pts : List wxPoint) : List wxPoint :=
  if m_Flags = IS_NEW ∧ 2 < pts.length ∧
      pts.getD (pts.length - 2) origin = pts.getD (pts.length - 1) origin
  then pts.dropLast else pts

/-- Second phase of `LIB_POLYLINE::EndEdit`: in `IS_RESIZED` mode with more
than 2 vertices, erase the modified vertex when it equals its left
neighbour (for a positive index) or its right neighbour (for an index
before the last). -/
def EndEditResized (m_Flags : ℕ) (m_ModifyIndex : ℤ) (pts : List wxPoint) : List wxPoint :=
  if m_Flags = IS_RESIZED ∧ 2 < pts.length ∧
      ((0 < m_ModifyIndex ∧
        pts.getD m_ModifyIndex.toNat origin = pts.getD (m_ModifyIndex - 1).toNat origin) ∨
       (m_ModifyIndex < (pts.length : ℤ) - 1 ∧
        pts.getD m_ModifyIndex.toNat origin = pts.getD (m_ModifyIndex + 1).toNat origin))
  then pts.eraseIdx m_ModifyIndex.toNat else pts

/-- `LIB_POLYLINE::EndEdit`, acting on the vertex list. The base-class
call `LIB_ITEM::EndEdit` is not under src/; modelled from the spec: the
session finalisation it performs does not touch the vertex list, so the
vertex effect is the two cleanup phases in sequence. -/
def EndEdit (m_Flags : ℕ) (m_ModifyIndex : ℤ) (pts : List wxPoint) : List wxPoint :=
  EndEditResized m_Flags m_ModifyIndex (EndEditNewDedup m_Flags pts)

/-- `LIB_POLYLINE::DeleteSegment`: while more than 2 corners remain, pop
the last vertex; if the new last vertex already differs from `aPosition`,
overwrite it with `aPosition` and stop. The first segment is kept. -/
def DeleteSegment (pts : List wxPoint) (aPosition : wxPoint) : List wxPoint :=
  if h : 2 < pts.length then
    if pts.dropLast.getLast? ≠ some aPosition
    then pts.dropLast.dropLast ++ [aPosition]
    else DeleteSegment pts.dropLast aPosition
  else pts
termination_by pts.length
decreasing_by
  simp only [List.length_dropLast]
  omega

/-- `EDA_ITEM::IsNew`, modelled from the spec: Creating mode is the
`IS_NEW` bit of the status flags (the accessor lives in the base item
header, not under src/). -/
def IsNew (m_Flags : ℕ) : Bool :=
  decide (m_Flags &&& IS_NEW ≠ 0)

/-- `LIB_POLYLINE::ContinueEdit`: in Creating mode, append `aPosition`
unless the pending segment is degenerate (the last two vertices are
equal), and report `true`; in any other mode change nothing and report
`false`. -/
def ContinueEdit (m_Flags : ℕ) (pts : List wxPoint) (aPosition : wxPoint) :
    List wxPoint × Bool :=
  if IsNew m_Flags then
    (if pts.getD (pts.length - 2) origin ≠ pts.getD (pts.length - 1) origin
     then pts ++ [aPosition] else pts, true)
  else (pts, false)

lemma endEditNewDedup_length (m_Flags : ℕ) (pts : List wxPoint)
    (h : 2 ≤ pts.length) : 2 ≤ (EndEditNewDedup m_Flags pts).length := by
  unfold EndEditNewDedup
  split
  · next hc =>
      simp only [List.length_dropLast]
      omega
  · exact h

lemma endEditResized_length (m_Flags : ℕ) (mi : ℤ) (pts : List wxPoint)
    (h : 2 ≤ pts.length) : 2 ≤ (EndEditResized m_Flags mi pts).length := by
  unfold EndEditResized
  split
  · next hc =>
      rw [List.length_eraseIdx]
      split <;> omega
  · exact h

lemma deleteSegment_length_aux (p : wxPoint) :
    ∀ n (pts : List wxPoint), pts.length ≤ n → 2 ≤ pts.length →
      2 ≤ (DeleteSegment pts p).length := by
  intro n
  induction n with
  | zero =>
    intro pts h1 h2
    omega
  | succ n ih =>
    intro pts h1 h2
    rw [DeleteSegment]
    split
    · next h3 =>
        split
        · next h4 =>
            simp only [List.length_append, List.length_dropLast, List.length_cons,
              List.length_nil]
            omega
        · next h4 =>
            apply ih
            · simp only [List.length_dropLast]
              omega
            · simp only [List.length_dropLast]
              omega
    · next h3 => exact h2

/-- C2: every completed edit keeps at least 2 vertices: for any mode flags
and modify index, `EndEdit` removes a vertex only when more than 2 remain,
and `DeleteSegment`'s pop loop stops before the corner count drops below
2 — both preserve `2 ≤ length`. -/
theorem endEdit_deleteSegment_min_vertices (m_Flags : ℕ) (mi : ℤ)
    (pts : List wxPoint) (p : wxPoint) (h : 2 ≤ pts.length) :
    2 ≤ (EndEdit m_Flags mi pts).length ∧ 2 ≤ (DeleteSegment pts p).length := by
  constructor
  · exact endEditResized_length m_Flags mi _ (endEditNewDedup_length m_Flags pts h)
  · exact deleteSegment_length_aux p pts.length pts le_rfl h

/-- C2 witness: the invariant applied to a concrete 3-vertex polyline in
`IS_NEW` mode whose last two vertices coincide (so `EndEdit` really pops)
and whose `DeleteSegment` loop really runs. -/
theorem endEdit_deleteSegment_min_vertices_witness :
    2 ≤ (EndEdit IS_NEW 0 [(⟨0, 0⟩ : wxPoint), ⟨4, 0⟩, ⟨4, 0⟩]).length ∧
    2 ≤ (DeleteSegment [(⟨0, 0⟩ : wxPoint), ⟨4, 0⟩, ⟨4, 0⟩] ⟨2, 0⟩).length :=
  endEdit_deleteSegment_min_vertices IS_NEW 0 [(⟨0, 0⟩ : wxPoint), ⟨4, 0⟩, ⟨4, 0⟩]
    ⟨2, 0⟩ (by decide)

/-- C8: `ContinueEdit` appends `aPosition` exactly when Creating mode is
active and the last two vertices differ; with the last two equal it leaves
the list unchanged (still reporting `true`); outside Creating mode it
mutates nothing and returns `false`. -/
theorem continueEdit_spec (m_Flags : ℕ) (pts : List wxPoint) (p : wxPoint)
    (h : 2 ≤ pts.length) :
    (IsNew m_Flags = true →
      (pts.getD (pts.length - 2) origin ≠ pts.getD (pts.length - 1) origin →
        ContinueEdit m_Flags pts p = (pts ++ [p], true)) ∧
      (pts.getD (pts.length - 2) origin = pts.getD (pts.length - 1) origin →
        ContinueEdit m_Flags pts p = (pts, true))) ∧
    (IsNew m_Flags = false → ContinueEdit m_Flags pts p = (pts, false)) := by
  unfold ContinueEdit
  constructor
  · intro hN
    rw [if_pos hN]
    constructor
    · intro hd
      rw [if_pos hd]
    · intro hd
      rw [if_neg (not_not_intro hd)]
  · intro hN
    rw [if_neg (by simp [hN])]

/-- C8 witness: `ContinueEdit` in Creating mode on `[(0,0), (10,0)]` with
a fresh point (last two vertices differ, so the point is appended). -/
theorem continueEdit_spec_witness :
    ContinueEdit IS_NEW [(⟨0, 0⟩ : wxPoint), ⟨10, 0⟩] ⟨20, 5⟩ =
      ([(⟨0, 0⟩ : wxPoint), ⟨10, 0⟩] ++ [⟨20, 5⟩], true) :=
  ((continueEdit_spec IS_NEW [(⟨0, 0⟩ : wxPoint), ⟨10, 0⟩] ⟨20, 5⟩ (by decide)).1
    (by decide)).1 (by decide)

/-- Modelled from the spec: the global `DefaultTransform` applied to every
vertex before hit testing (transform.h is not under src/); the default
schematic transform maps `(x, y)` to `(x, -y)`, the top-down y-axis
convention of the hosting canvas. -/
def DefaultTransform (p : wxPoint) : wxPoint := ⟨p.x, -p.y⟩

/-- `LIB_POLYLINE::GetPenSize`: the explicit width when positive, the
caller-supplied default line thickness when zero, the sentinel `-1`
otherwise (`GetDefaultLineThickness` is host state; the spec directs it to
be passed as a parameter). -/
def GetPenSize (m_Width defaultLineThickness : ℤ) : ℤ :=
  if 0 < m_Width then m_Width
  else if m_Width = 0 then defaultLineThickness
  else -1

/-- Modelled from the spec: `TestSegmentHit(pos, a, b, dist)` (trigo.h, not
under src/) — true iff the segment `a`–`b` lies within distance `dist` of
`pos`: for the nonnegative exact distance `√distSqSeg`, `√q ≤ d` iff
`0 ≤ d ∧ q ≤ d²`. -/
def TestSegmentHit (aPosition a b : wxPoint) (aDist : ℤ) : Bool :=
  decide (0 ≤ aDist ∧ distSqSeg a b aPosition ≤ (aDist : ℚ) ^ 2)

/-- `LIB_POLYLINE::HitTest(wxPoint)`: tolerance
`max(aAccuracy + GetPenSize() / 2, MINIMUM_SELECTION_DISTANCE)` (the
constant is host-supplied, passed as `minimumSelectionDistance`; the C
`int` division truncates toward zero, `Int.tdiv`); then scan the open
chain of consecutive-vertex segments (`ii` from 1 to `size − 1`,
reindexed here as segments `(i, i+1)` for `i < size − 1`), each vertex
transformed by `DefaultTransform`. No wrap-around edge is tested and no
status-flag guard is applied. -/
def HitTestPoint (m_Width defaultLineThickness minimumSelectionDistance : ℤ)
    (pts : List wxPoint) (aPosition : wxPoint) (aAccuracy : ℤ) : Bool :=
  let mindist := max (aAccuracy + Int.tdiv (GetPenSize m_Width defaultLineThickness) 2)
    minimumSelectionDistance
  (List.range (pts.length - 1)).any fun i =>
    TestSegmentHit aPosition (DefaultTransform (pts.getD i origin))
      (DefaultTransform (pts.getD (i + 1) origin)) mindist

/-- Modelled from the spec: the axis-aligned selection/bounding rectangle
(`EDA_RECT`, not under src/), kept normalised: `(x1, y1)` is the corner
with minimal coordinates, `(x2, y2)` the one with maximal. -/
structure EDA_RECT where
  x1 : ℤ
  y1 : ℤ
  x2 : ℤ
  y2 : ℤ
deriving DecidableEq

/-- Modelled from the spec: `EDA_RECT::Inflate` grows the rectangle by `d`
on every side. -/
def EDA_RECT.Inflate (r : EDA_RECT) (d : ℤ) : EDA_RECT :=
  ⟨r.x1 - d, r.y1 - d, r.x2 + d, r.y2 + d⟩

/-- Modelled from the spec: `rectContainsPoint` — closed point
containment. -/
def EDA_RECT.ContainsP (r : EDA_RECT) (p : wxPoint) : Bool :=
  decide (r.x1 ≤ p.x ∧ p.x ≤ r.x2 ∧ r.y1 ≤ p.y ∧ p.y ≤ r.y2)

/-- Modelled from the spec: rectangle-in-rectangle containment, used by
the `contained` branch of rectangle hit testing. -/
def EDA_RECT.ContainsR (r s : EDA_RECT) : Bool :=
  decide (r.x1 ≤ s.x1 ∧ s.x2 ≤ r.x2 ∧ r.y1 ≤ s.y1 ∧ s.y2 ≤ r.y2)

/-- Modelled from the spec: rectangle–rectangle intersection (closed
overlap on both axes), used for the fast bounding-box reject. -/
def EDA_RECT.IntersectsR (r s : EDA_RECT) : Bool :=
  decide (r.x1 ≤ s.x2 ∧ s.x1 ≤ r.x2 ∧ r.y1 ≤ s.y2 ∧ s.y1 ≤ r.y2)

/-- Orientation of the triple `(a, b, c)`: the sign of the cross product
of `b - a` and `c - a`. -/
def orient (a b c : wxPoint) : ℤ :=
  (b.x - a.x) * (c.y - a.y) - (b.y - a.y) * (c.x - a.x)

/-- For a point `c` collinear with `a`–`b`: does `c` lie within the
segment's bounding box (hence on the segment)? -/
def onSegment (a b c : wxPoint) : Bool :=
  decide (min a.x b.x ≤ c.x ∧ c.x ≤ max a.x b.x ∧
    min a.y b.y ≤ c.y ∧ c.y ≤ max a.y b.y)

/-- Modelled from the spec: exact segment–segment intersection over the
integers (`SegmentIntersectsSegment`, trigo.cpp, not under src/): a proper
crossing has strictly opposite orientations on both sides; otherwise a
collinear endpoint must lie on the other segment. -/
def SegmentIntersectsSegment (a b c d : wxPoint) : Bool :=
  (decide (orient a b c * orient a b d < 0) &&
   decide (orient c d a * orient c d b < 0)) ||
  (decide (orient a b c = 0) && onSegment a b c) ||
  (decide (orient a b d = 0) && onSegment a b d) ||
  (decide (orient c d a = 0) && onSegment c d a) ||
  (decide (orient c d b = 0) && onSegment c d b)

/-- Modelled from the spec: `EDA_RECT::Intersects(p1, p2)` — the segment
meets the rectangle iff an endpoint lies inside or the segment crosses one
of the four sides. -/
def EDA_RECT.IntersectsSeg (r : EDA_RECT) (p1 p2 : wxPoint) : Bool :=
  r.ContainsP p1 || r.ContainsP p2 ||
  SegmentIntersectsSegment p1 p2 ⟨r.x1, r.y1⟩ ⟨r.x2, r.y1⟩ ||
  SegmentIntersectsSegment p1 p2 ⟨r.x2, r.y1⟩ ⟨r.x2, r.y2⟩ ||
  SegmentIntersectsSegment p1 p2 ⟨r.x2, r.y2⟩ ⟨r.x1, r.y2⟩ ||
  SegmentIntersectsSegment p1 p2 ⟨r.x1, r.y2⟩ ⟨r.x1, r.y1⟩

/-- `LIB_POLYLINE::GetBoundingBox`: min/max over all vertices (the source
folds from index 1 starting at vertex 0), inflated by
`(GetPenSize() + 1) / 2`, then the y-axis is reverted to the top-down
screen convention (`EDA_RECT::RevertYAxis` negates and re-normalises the
y extent). Reads `m_PolyPoints[0]` unconditionally, so it is meaningful
only for a non-empty list (see `GetBoundingBoxE`). -/
def GetBoundingBox (m_Width defaultLineThickness : ℤ) (pts : List wxPoint) : EDA_RECT :=
  let x0 := (pts.getD 0 origin).x
  let y0 := (pts.getD 0 origin).y
  let xmin := pts.tail.foldl (fun m q => min m q.x) x0
  let xmax := pts.tail.foldl (fun m q => max m q.x) x0
  let ymin := pts.tail.foldl (fun m q => min m q.y) y0
  let ymax := pts.tail.foldl (fun m q => max m q.y) y0
  let infl := Int.tdiv (GetPenSize m_Width defaultLineThickness + 1) 2
  ⟨xmin - infl, -(ymax + infl), xmax + infl, -(ymin - infl)⟩

/-- `LIB_POLYLINE::HitTest(EDA_RECT)`: deleted/skipped items never hit;
the rectangle is inflated by `aAccuracy` when non-zero; in `aContained`
mode the rectangle must contain the bounding box; otherwise fast-reject
against the bounding box, inflate by half the raw stroke width
(`GetWidth() / 2`, truncating), and test every edge of the *closed* cycle
(`(ii + 1) % count`, so including the wrap-around edge last→first):
endpoint inside, or edge crossing the rectangle. -/
def HitTestRect (m_Flags : ℕ) (m_Width defaultLineThickness : ℤ)
    (pts : List wxPoint) (aRect : EDA_RECT) (aContained : Bool)
    (aAccuracy : ℤ) : Bool :=
  if m_Flags &&& (STRUCT_DELETED ||| SKIP_STRUCT) ≠ 0 then false
  else
    let sel := if aAccuracy ≠ 0 then aRect.Inflate aAccuracy else aRect
    if aContained then
      sel.ContainsR (GetBoundingBox m_Width defaultLineThickness pts)
    else if sel.IntersectsR (GetBoundingBox m_Width defaultLineThickness pts) then
      let sel2 := sel.Inflate (Int.tdiv m_Width 2)
      (List.range pts.length).any fun i =>
        sel2.ContainsP (DefaultTransform (pts.getD i origin)) ||
        sel2.IntersectsSeg (DefaultTransform (pts.getD i origin))
          (DefaultTransform (pts.getD ((i + 1) % pts.length) origin))
    else false

/-- The polyline item state read by the hit tests: status flags, stroke
width and vertex list. -/
structure LIB_POLYLINE where
  m_Flags : ℕ
  m_Width : ℤ
  m_PolyPoints : List wxPoint

/-- `LIB_POLYLINE::HitTest(wxPoint)` on the item state: it reads only the
width and the vertices — there is no status-flag guard. -/
def LIB_POLYLINE.HitTestPointOf (s : LIB_POLYLINE)
    (defaultLineThickness minimumSelectionDistance : ℤ) (p : wxPoint)
    (acc : ℤ) : Bool :=
  HitTestPoint s.m_Width defaultLineThickness minimumSelectionDistance
    s.m_PolyPoints p acc

/-- `LIB_POLYLINE::HitTest(EDA_RECT)` on the item state: guarded by the
deleted/skip status flags. -/
def LIB_POLYLINE.HitTestRectOf (s : LIB_POLYLINE) (defaultLineThickness : ℤ)
    (aRect : EDA_RECT) (aContained : Bool) (acc : ℤ) : Bool :=
  HitTestRect s.m_Flags s.m_Width defaultLineThickness s.m_PolyPoints aRect
    aContained acc

/-- C3: point hit testing succeeds iff some consecutive-vertex segment of
the *open* chain (segments `(i, i+1)` for `i + 1 < size` only — the
wrap-around edge from the last vertex to the first is never tested) lies
within tolerance `max(accuracy + penSize/2, minimumSelectionDistance)` of
the position, distances taken after the default transform. -/
theorem hitTestPoint_iff (w d m : ℤ) (pts : List wxPoint) (p : wxPoint) (acc : ℤ) :
    HitTestPoint w d m pts p acc = true ↔
    ∃ i, i + 1 < pts.length ∧
      0 ≤ max (acc + Int.tdiv (GetPenSize w d) 2) m ∧
      distSqSeg (DefaultTransform (pts.getD i origin))
          (DefaultTransform (pts.getD (i + 1) origin)) p ≤
        ((max (acc + Int.tdiv (GetPenSize w d) 2) m : ℤ) : ℚ) ^ 2 := by
  simp only [HitTestPoint, TestSegmentHit, List.any_eq_true, List.mem_range,
    decide_eq_true_eq]
  constructor
  · rintro ⟨i, hi, h0, hd⟩
    exact ⟨i, by omega, h0, hd⟩
  · rintro ⟨i, hi, h0, hd⟩
    exact ⟨i, by omega, h0, hd⟩

/-- C4: rectangle hit testing with `contained = false`, for a shape whose
deleted/skip flags are clear: it returns false whenever the
accuracy-inflated rectangle misses the bounding box, and otherwise
succeeds iff some edge of the *closed* cycle (indices mod `size`, so
including the wrap-around edge) has an endpoint inside, or crosses, the
rectangle further inflated by half the stroke width. -/
theorem hitTestRect_open_spec (m_Flags : ℕ) (w d : ℤ) (pts : List wxPoint)
    (aRect : EDA_RECT) (acc : ℤ) (hne : pts ≠ [])
    (hflags : m_Flags &&& (STRUCT_DELETED ||| SKIP_STRUCT) = 0) :
    ((if acc ≠ 0 then aRect.Inflate acc else aRect).IntersectsR
        (GetBoundingBox w d pts) = false →
      HitTestRect m_Flags w d pts aRect false acc = false) ∧
    ((if acc ≠ 0 then aRect.Inflate acc else aRect).IntersectsR
        (GetBoundingBox w d pts) = true →
      (HitTestRect m_Flags w d pts aRect false acc = true ↔
        ∃ i, i < pts.length ∧
          (((if acc ≠ 0 then aRect.Inflate acc else aRect).Inflate
              (Int.tdiv w 2)).ContainsP
                (DefaultTransform (pts.getD i origin)) = true ∨
           ((if acc ≠ 0 then aRect.Inflate acc else aRect).Inflate
              (Int.tdiv w 2)).IntersectsSeg
                (DefaultTransform (pts.getD i origin))
                (DefaultTransform (pts.getD ((i + 1) % pts.length) origin)) =
              true))) := by
  have e : HitTestRect m_Flags w d pts aRect false acc =
      (if (if acc ≠ 0 then aRect.Inflate acc else aRect).IntersectsR
          (GetBoundingBox w d pts) = true then
        (List.range pts.length).any fun i =>
          ((if acc ≠ 0 then aRect.Inflate acc else aRect).Inflate
              (Int.tdiv w 2)).ContainsP (DefaultTransform (pts.getD i origin)) ||
          ((if acc ≠ 0 then aRect.Inflate acc else aRect).Inflate
              (Int.tdiv w 2)).IntersectsSeg (DefaultTransform (pts.getD i origin))
            (DefaultTransform (pts.getD ((i + 1) % pts.length) origin))
      else false) := by
    unfold HitTestRect
    rw [if_neg (not_not_intro hflags)]
    rfl
  constructor
  · intro hno
    rw [e, hno]
    rfl
  · intro hyes
    rw [e, hyes]
    simp only [if_pos, List.any_eq_true, List.mem_range, Bool.or_eq_true]

/-- C4 witness: the fast-reject branch applied to the polyline
`[(0,0), (10,0)]` (bounding box `⟨-1,-1,11,1⟩` for width 0, default
thickness 1) and the far-away rectangle `⟨100,100,110,110⟩`. -/
theorem hitTestRect_open_spec_witness :
    HitTestRect 0 0 1 [(⟨0, 0⟩ : wxPoint), ⟨10, 0⟩] ⟨100, 100, 110, 110⟩
      false 0 = false :=
  (hitTestRect_open_spec 0 0 1 [(⟨0, 0⟩ : wxPoint), ⟨10, 0⟩]
    ⟨100, 100, 110, 110⟩ 0 (by decide) (by decide)).1 (by decide)

/-- C10: with the `STRUCT_DELETED` or `SKIP_STRUCT` flag set, rectangle
hit testing returns false regardless of rectangle, containment mode,
accuracy and geometry; point hit testing has no such guard — its result
never depends on the status flags. -/
theorem hitTest_flag_guard (s : LIB_POLYLINE) (d m : ℤ) (aRect : EDA_RECT)
    (aContained : Bool) (accR accP : ℤ) (p : wxPoint) :
    (s.m_Flags &&& (STRUCT_DELETED ||| SKIP_STRUCT) ≠ 0 →
      s.HitTestRectOf d aRect aContained accR = false) ∧
    (∀ f : ℕ, (LIB_POLYLINE.mk f s.m_Width s.m_PolyPoints).HitTestPointOf d m p accP =
      s.HitTestPointOf d m p accP) := by
  constructor
  · intro hf
    unfold LIB_POLYLINE.HitTestRectOf HitTestRect
    rw [if_pos hf]
  · intro f
    rfl

/-- C10 witness: a deleted two-vertex polyline crossing the query
rectangle still reports a miss. -/
theorem hitTest_flag_guard_witness :
    (LIB_POLYLINE.mk STRUCT_DELETED 0 [⟨0, 0⟩, ⟨10, 0⟩]).HitTestRectOf 1
      ⟨-5, -5, 5, 5⟩ false 0 = false :=
  (hitTest_flag_guard (LIB_POLYLINE.mk STRUCT_DELETED 0 [⟨0, 0⟩, ⟨10, 0⟩]) 1 1
    ⟨-5, -5, 5, 5⟩ false 0 0 ⟨0, 0⟩).1 (by decide)


/-- The running state of `BeginEdit`'s nearest-candidate scan in
`IS_RESIZED` mode. `negWin` is a ghost observation recording whether the
most recent update of `m_ModifyIndex` came from the midpoint
(insert-new-vertex) branch: it makes the source's sign encoding observable
where the sign itself cannot distinguish `-0` from `0`. -/
structure BeginState where
  distanceMin : ℤ
  m_ModifyIndex : ℤ
  m_initialPos : wxPoint
  negWin : Bool
deriving DecidableEq

/-- The squared distance `(aPosition - point).x * (aPosition - point).x +
(aPosition - point).y * (aPosition - point).y` as the source computes it in
C `int` arithmetic: every subtraction, product and sum wraps to 32 bits
(`toInt32`). For small operands it coincides with `distSqP`. -/
def distSqP32 (a b : wxPoint) : ℤ :=
  toInt32 (toInt32 (toInt32 (a.x - b.x) * toInt32 (a.x - b.x)) +
    toInt32 (toInt32 (a.y - b.y) * toInt32 (a.y - b.y)))

/-- The vertex branch of `BeginEdit`'s scan: drag candidate at the vertex
itself, on strict improvement of the (wrapped) squared distance. -/
def beginStepVertex (aPosition : wxPoint) (st : BeginState) (index : ℤ)
    (point : wxPoint) : BeginState :=
  if distSqP32 aPosition point < st.distanceMin
  then ⟨distSqP32 aPosition point, index, point, false⟩ else st

/-- The offset `aPosition + aPosition - point - prevPoint` (twice the
vector from the edge midpoint to the cursor), each component computed with
32-bit `int` wrap at every operation. -/
def midOffset (aPosition point prevPoint : wxPoint) : wxPoint :=
  ⟨toInt32 (toInt32 (toInt32 (aPosition.x + aPosition.x) - point.x) - prevPoint.x),
   toInt32 (toInt32 (toInt32 (aPosition.y + aPosition.y) - point.y) - prevPoint.y)⟩

/-- The biased squared distance to the midpoint of the edge
`prevPoint`–`point`: squared offset length (products and sum wrapping to
32 bits as in the source's `int` arithmetic), divided by 4 (C `int`
division, truncating), plus 1 to bias away from exact ties. The wrap is
essential: for `|offset| ≥ 2^16` the product overflows in the program. -/
def midDistance (aPosition point prevPoint : wxPoint) : ℤ :=
  toInt32 (Int.tdiv
    (toInt32 (toInt32 ((midOffset aPosition point prevPoint).x *
        (midOffset aPosition point prevPoint).x) +
      toInt32 ((midOffset aPosition point prevPoint).y *
        (midOffset aPosition point prevPoint).y))) 4 + 1)

/-- The midpoint branch of `BeginEdit`'s scan: insert candidate before
`index` (recorded as the *negated* index), on strict improvement. -/
def beginStepMid (aPosition : wxPoint) (st : BeginState)
    (prevPoint point : wxPoint) (index : ℤ) : BeginState :=
  if midDistance aPosition point prevPoint < st.distanceMin
  then ⟨midDistance aPosition point prevPoint, -index, point, true⟩ else st

/-- One iteration of `BeginEdit`'s scan (`IS_RESIZED` mode): the vertex
branch, then the midpoint branch; the accumulator also carries `prevPoint`
and the running index. -/
def beginStep (aPosition : wxPoint) (acc : BeginState × wxPoint × ℤ)
    (point : wxPoint) : BeginState × wxPoint × ℤ :=
  (beginStepMid aPosition (beginStepVertex aPosition acc.1 acc.2.2 point)
    acc.2.1 point acc.2.2, point, acc.2.2 + 1)

/-- `LIB_POLYLINE::BeginEdit` in `IS_RESIZED` mode: vertex 0 is the
provisional dragged point with its (wrapped) squared distance as the
initial running minimum, then every vertex and every edge midpoint is
scanned. Reads `m_PolyPoints[0]` unconditionally, so it is meaningful only
for a non-empty list. -/
def BeginEditResized (pts : List wxPoint) (aPosition : wxPoint) : BeginState :=
  let startPoint := pts.getD 0 origin
  (pts.foldl (beginStep aPosition)
    (⟨distSqP32 aPosition startPoint, 0, startPoint, false⟩, startPoint, 0)).1

lemma toInt32_small {z : ℤ} (h1 : -2 ^ 31 ≤ z) (h2 : z < 2 ^ 31) : toInt32 z = z := by
  unfold toInt32
  omega

lemma toInt32_sub_left (a b : ℤ) : toInt32 (toInt32 a - b) = toInt32 (a - b) := by
  unfold toInt32
  omega

lemma scanIndex0_arith (p v : wxPoint) (h : distSqP p v < 2 ^ 29) :
    distSqP32 p v = distSqP p v ∧ midDistance p v v = distSqP p v + 1 := by
  have hxx : 0 ≤ (p.x - v.x) * (p.x - v.x) := mul_self_nonneg _
  have hyy : 0 ≤ (p.y - v.y) * (p.y - v.y) := mul_self_nonneg _
  have hd : (p.x - v.x) * (p.x - v.x) + (p.y - v.y) * (p.y - v.y) < 2 ^ 29 := by
    unfold distSqP at h
    exact h
  have hxd : (p.x - v.x) * (p.x - v.x) < 2 ^ 29 := by
    unfold distSqP at h
    linarith
  have hyd : (p.y - v.y) * (p.y - v.y) < 2 ^ 29 := by
    unfold distSqP at h
    linarith
  have hxb1 : -(2 ^ 15) ≤ p.x - v.x := by nlinarith [sq_nonneg (p.x - v.x + 2 ^ 15)]
  have hxb2 : p.x - v.x < 2 ^ 15 := by nlinarith [sq_nonneg (p.x - v.x - 2 ^ 15)]
  have hyb1 : -(2 ^ 15) ≤ p.y - v.y := by nlinarith [sq_nonneg (p.y - v.y + 2 ^ 15)]
  have hyb2 : p.y - v.y < 2 ^ 15 := by nlinarith [sq_nonneg (p.y - v.y - 2 ^ 15)]
  have ex : toInt32 (p.x - v.x) = p.x - v.x := toInt32_small (by linarith) (by linarith)
  have ey : toInt32 (p.y - v.y) = p.y - v.y := toInt32_small (by linarith) (by linarith)
  have exx : toInt32 ((p.x - v.x) * (p.x - v.x)) = (p.x - v.x) * (p.x - v.x) :=
    toInt32_small (by linarith) (by linarith)
  have eyy : toInt32 ((p.y - v.y) * (p.y - v.y)) = (p.y - v.y) * (p.y - v.y) :=
    toInt32_small (by linarith) (by linarith)
  constructor
  · unfold distSqP32 distSqP
    rw [ex, ey, exx, eyy]
    exact toInt32_small (by linarith) (by linarith)
  · unfold midDistance midOffset
    simp only [toInt32_sub_left]
    have r2x : p.x + p.x - v.x - v.x = 2 * (p.x - v.x) := by ring
    have r2y : p.y + p.y - v.y - v.y = 2 * (p.y - v.y) := by ring
    rw [r2x, r2y]
    have e2x : toInt32 (2 * (p.x - v.x)) = 2 * (p.x - v.x) :=
      toInt32_small (by linarith) (by linarith)
    have e2y : toInt32 (2 * (p.y - v.y)) = 2 * (p.y - v.y) :=
      toInt32_small (by linarith) (by linarith)
    rw [e2x, e2y]
    have rxx : 2 * (p.x - v.x) * (2 * (p.x - v.x)) =
        4 * ((p.x - v.x) * (p.x - v.x)) := by ring
    have ryy : 2 * (p.y - v.y) * (2 * (p.y - v.y)) =
        4 * ((p.y - v.y) * (p.y - v.y)) := by ring
    rw [rxx, ryy]
    have e4x : toInt32 (4 * ((p.x - v.x) * (p.x - v.x))) =
        4 * ((p.x - v.x) * (p.x - v.x)) := toInt32_small (by linarith) (by linarith)
    have e4y : toInt32 (4 * ((p.y - v.y) * (p.y - v.y))) =
        4 * ((p.y - v.y) * (p.y - v.y)) := toInt32_small (by linarith) (by linarith)
    rw [e4x, e4y]
    have rs : 4 * ((p.x - v.x) * (p.x - v.x)) + 4 * ((p.y - v.y) * (p.y - v.y)) =
        4 * ((p.x - v.x) * (p.x - v.x) + (p.y - v.y) * (p.y - v.y)) := by ring
    rw [rs]
    have es : toInt32 (4 * ((p.x - v.x) * (p.x - v.x) + (p.y - v.y) * (p.y - v.y))) =
        4 * ((p.x - v.x) * (p.x - v.x) + (p.y - v.y) * (p.y - v.y)) :=
      toInt32_small (by linarith) (by linarith)
    rw [es]
    rw [Int.mul_tdiv_cancel_left _ (by norm_num)]
    have efin : toInt32 ((p.x - v.x) * (p.x - v.x) + (p.y - v.y) * (p.y - v.y) + 1) =
        (p.x - v.x) * (p.x - v.x) + (p.y - v.y) * (p.y - v.y) + 1 :=
      toInt32_small (by linarith) (by linarith)
    rw [efin]
    rfl

lemma beginStep_self_of_small (p v : wxPoint) (h : distSqP p v < 2 ^ 29) :
    beginStep p (⟨distSqP32 p v, 0, v, false⟩, v, 0) v =
      (⟨distSqP32 p v, 0, v, false⟩, v, 1) := by
  obtain ⟨e32, emid⟩ := scanIndex0_arith p v h
  show (beginStepMid p (beginStepVertex p ⟨distSqP32 p v, 0, v, false⟩ 0 v) v v 0,
    v, (0 : ℤ) + 1) = (⟨distSqP32 p v, 0, v, false⟩, v, 1)
  have e1 : beginStepVertex p ⟨distSqP32 p v, 0, v, false⟩ 0 v =
      ⟨distSqP32 p v, 0, v, false⟩ := by
    unfold beginStepVertex
    rw [if_neg (lt_irrefl _)]
  rw [e1]
  have e2 : beginStepMid p ⟨distSqP32 p v, 0, v, false⟩ v v 0 =
      ⟨distSqP32 p v, 0, v, false⟩ := by
    unfold beginStepMid
    rw [if_neg]
    show ¬(midDistance p v v < distSqP32 p v)
    rw [emid, e32]
    omega
  rw [e2]
  norm_num

lemma beginScan_preserve (p V : wxPoint) (l : List wxPoint) :
    ∀ acc : BeginState × wxPoint × ℤ, 1 ≤ acc.2.2 →
      (acc.1.m_ModifyIndex = 0 → acc.1.negWin = false ∧ acc.1.m_initialPos = V) →
      ((l.foldl (beginStep p) acc).1.m_ModifyIndex = 0 →
        (l.foldl (beginStep p) acc).1.negWin = false ∧
        (l.foldl (beginStep p) acc).1.m_initialPos = V) := by
  induction l with
  | nil =>
    intro acc hidx hP
    simpa using hP
  | cons q t ih =>
    intro acc hidx hP
    simp only [List.foldl_cons]
    apply ih (beginStep p acc q)
    · show 1 ≤ acc.2.2 + 1
      omega
    · intro h0
      have e : (beginStep p acc q).1 =
          beginStepMid p (beginStepVertex p acc.1 acc.2.2 q) acc.2.1 q acc.2.2 := rfl
      rw [e] at h0 ⊢
      unfold beginStepMid at h0 ⊢
      by_cases hm : midDistance p q acc.2.1 <
          (beginStepVertex p acc.1 acc.2.2 q).distanceMin
      · rw [if_pos hm] at h0
        have h0' : -acc.2.2 = 0 := h0
        exfalso
        omega
      · rw [if_neg hm] at h0 ⊢
        unfold beginStepVertex at h0 ⊢
        by_cases hv : distSqP32 p q < acc.1.distanceMin
        · rw [if_pos hv] at h0
          have h0' : acc.2.2 = 0 := h0
          exfalso
          omega
        · rw [if_neg hv] at h0 ⊢
          exact hP h0

/-- C9 (amended): provided the squared distance from the cursor to vertex
0 stays below `2^29` — so the index-0 candidate computations fit in 32-bit
`int` arithmetic — the midpoint candidate examined at scan index 0 can
never win: its biased distance is exactly the squared distance to vertex 0
plus 1, the whole first iteration leaves the scan state unchanged, and a
final `m_ModifyIndex` of 0 can only come from the vertex branch
(`negWin = false`): it means "drag vertex 0" with the anchor at vertex 0.
Without that bound the `int` multiply in the midpoint distance wraps and
the index-0 midpoint candidate can win (see the counterexample). -/
theorem beginEditResized_vertex0_unambiguous (pts : List wxPoint) (p : wxPoint)
    (hne : pts ≠ []) (hsmall : distSqP p (pts.getD 0 origin) < 2 ^ 29) :
    midDistance p (pts.getD 0 origin) (pts.getD 0 origin) =
      distSqP p (pts.getD 0 origin) + 1 ∧
    beginStep p (⟨distSqP32 p (pts.getD 0 origin), 0, pts.getD 0 origin, false⟩,
        pts.getD 0 origin, 0) (pts.getD 0 origin) =
      (⟨distSqP32 p (pts.getD 0 origin), 0, pts.getD 0 origin, false⟩,
        pts.getD 0 origin, 1) ∧
    ((BeginEditResized pts p).m_ModifyIndex = 0 →
      (BeginEditResized pts p).negWin = false ∧
      (BeginEditResized pts p).m_initialPos = pts.getD 0 origin) := by
  obtain ⟨v0, rest, rfl⟩ := List.exists_cons_of_ne_nil hne
  have hget : (v0 :: rest).getD 0 origin = v0 := rfl
  rw [hget] at hsmall ⊢
  refine ⟨(scanIndex0_arith p v0 hsmall).2, beginStep_self_of_small p v0 hsmall, ?_⟩
  have e : BeginEditResized (v0 :: rest) p =
      (rest.foldl (beginStep p) (⟨distSqP32 p v0, 0, v0, false⟩, v0, 1)).1 := by
    simp only [BeginEditResized]
    rw [hget, List.foldl_cons, beginStep_self_of_small p v0 hsmall]
  rw [e]
  exact beginScan_preserve p v0 rest (⟨distSqP32 p v0, 0, v0, false⟩, v0, 1)
    (by norm_num) (fun _ => ⟨rfl, rfl⟩)

/-- C9 witness: the amended statement applied to the polyline
`[(0,0), (6,0)]` with cursor `(1,1)` (squared distance 2, far below the
overflow bound), where the scan ends with `m_ModifyIndex = 0`. -/
theorem beginEditResized_vertex0_unambiguous_witness :
    midDistance ⟨1, 1⟩ ([(⟨0, 0⟩ : wxPoint), ⟨6, 0⟩].getD 0 origin)
        ([(⟨0, 0⟩ : wxPoint), ⟨6, 0⟩].getD 0 origin) =
      distSqP ⟨1, 1⟩ ([(⟨0, 0⟩ : wxPoint), ⟨6, 0⟩].getD 0 origin) + 1 ∧
    (BeginEditResized [(⟨0, 0⟩ : wxPoint), ⟨6, 0⟩] ⟨1, 1⟩).negWin = false ∧
    (BeginEditResized [(⟨0, 0⟩ : wxPoint), ⟨6, 0⟩] ⟨1, 1⟩).m_initialPos =
      [(⟨0, 0⟩ : wxPoint), ⟨6, 0⟩].getD 0 origin :=
  ⟨(beginEditResized_vertex0_unambiguous [(⟨0, 0⟩ : wxPoint), ⟨6, 0⟩] ⟨1, 1⟩
      (by decide) (by decide)).1,
   (beginEditResized_vertex0_unambiguous [(⟨0, 0⟩ : wxPoint), ⟨6, 0⟩] ⟨1, 1⟩
      (by decide) (by decide)).2.2 (by decide)⟩

/-- C9 counterexample: with vertices `[(0,0), (31768,0)]` and cursor
`(32768,0)` the initial running minimum is `32768² = 2^30`, but at scan
index 0 the midpoint offset is `(65536, 0)` and the `int` product
`65536 * 65536 = 2^32` wraps to 0, so the biased midpoint distance is
`0/4 + 1 = 1` — not the squared distance plus 1 (`2^30 + 1`) — and the
index-0 midpoint candidate *wins*: the scan ends with `m_ModifyIndex = 0`
reached through the insert branch (`negWin = true`), so `m_ModifyIndex = 0`
does not always mean "drag vertex 0" and the negated-index-0 ambiguity is
reachable at `BeginEdit`, refuting the claim. -/
theorem beginEditResized_overflow_cex :
    (BeginEditResized [(⟨0, 0⟩ : wxPoint), ⟨31768, 0⟩] ⟨32768, 0⟩).m_ModifyIndex = 0 ∧
    (BeginEditResized [(⟨0, 0⟩ : wxPoint), ⟨31768, 0⟩] ⟨32768, 0⟩).negWin = true ∧
    distSqP ⟨32768, 0⟩ ⟨0, 0⟩ = 2 ^ 30 ∧
    midDistance ⟨32768, 0⟩ ⟨0, 0⟩ ⟨0, 0⟩ = 1 ∧
    midDistance ⟨32768, 0⟩ ⟨0, 0⟩ ⟨0, 0⟩ ≠ distSqP ⟨32768, 0⟩ ⟨0, 0⟩ + 1 := by
  refine ⟨by decide, by decide, by decide, by decide, by decide⟩


/-- `AddCorner` as a fallible operation. On an empty vertex list the
source's loop bound `size() - 1` underflows (unsigned) and the first
iteration dereferences `m_PolyPoints[0]` out of bounds — modelled as
`none`. On any non-empty list, including a single vertex (where the loop
body never runs), every access is in bounds and the insertion completes:
there is no explicit precondition check. -/
def AddCornerE (pts : List wxPoint) (aPosition : wxPoint) : Option (List wxPoint) :=
  match pts with
  | [] => none
  | _ :: _ => some (AddCorner pts aPosition)

/-- `GetBoundingBox` as a fallible operation: the unconditional
`m_PolyPoints[0]` read fails on an empty vertex list — modelled as `none`;
any non-empty list, including a single vertex, yields a box. There is no
explicit precondition check. -/
def GetBoundingBoxE (m_Width defaultLineThickness : ℤ) (pts : List wxPoint) :
    Option EDA_RECT :=
  match pts with
  | [] => none
  | _ :: _ => some (GetBoundingBox m_Width defaultLineThickness pts)

/-- C7 (amended): neither `GetBoundingBox` nor `AddCorner` performs an
explicit precondition check signalling a degenerate shape: each fails
exactly on the empty vertex list (and only through its unchecked element
access), and each completes on every non-empty list — including the
single-vertex shapes the claim says should be rejected. -/
theorem boundingBox_addCorner_no_precondition_check (w d : ℤ)
    (pts : List wxPoint) (p : wxPoint) :
    ((GetBoundingBoxE w d pts).isNone ↔ pts = []) ∧
    ((AddCornerE pts p).isNone ↔ pts = []) := by
  cases pts <;> simp [GetBoundingBoxE, AddCornerE]

/-- C7 counterexample: on the single-vertex shape `[(0,0)]` — fewer than
the 2 vertices `AddCorner` requires — both operations complete instead of
failing fast: `AddCorner` splices the new point in at index 0 and
`GetBoundingBox` returns the inflated single-point box. -/
theorem boundingBox_addCorner_degenerate_cex :
    AddCornerE [(⟨0, 0⟩ : wxPoint)] ⟨10, 0⟩ = some [⟨10, 0⟩, ⟨0, 0⟩] ∧
    GetBoundingBoxE 0 1 [(⟨0, 0⟩ : wxPoint)] = some ⟨-1, -1, 1, 1⟩ :=
  ⟨by decide, by decide⟩
